import Mathlib

/-!
Verification of the structural-extraction engine of `src/tools/analyze_code.py`
(class `GoCodeAnalyzer`).

The engine applies five fixed regular-expression scanners to the raw text of
each file and merges the findings into five dictionaries.  We embed the text
as `List Char` and each Python regex as a hand-written matcher with exactly
the backtracking behaviour of Python's `re` module on that pattern
(leftmost match; greedy `X+`/`X*` take the maximal run and backtrack only
when a later mandatory atom can still succeed; for the patterns at hand, a
character class never overlaps the atom that follows it except in the struct
field pattern, where the backtracking is spelled out explicitly).
`\w` and `\s` are modelled by their ASCII meaning, which coincides with
Python's on every input considered here.
-/

/-- File text and names are lists of characters. -/
abbrev Str := List Char

/-- ASCII reading of the regex class `\w` : `[A-Za-z0-9_]`. -/
def wordChar (c : Char) : Bool := c.isAlphanum || c == '_'

/-- ASCII reading of the regex class `\s` : space, tab, newline, carriage
return, vertical tab, form feed. -/
def spaceChar (c : Char) : Bool :=
  c == ' ' || c == '\t' || c == '\n' || c == '\r' || c == '\x0b' || c == '\x0c'

/-- Match a literal string at the head of the input, returning the remainder
on success. -/
def dropLit : Str → Str → Option Str
  | [], l => some l
  | _ :: _, [] => none
  | p :: ps, c :: cs => if c = p then dropLit ps cs else none

/-! ## Python dictionaries as association lists

A Python `dict` preserves insertion order and assignment replaces the value
in place; `dictInsert` mirrors that.  `dictLookup` is `d[k]` / `k in d`. -/

def dictLookup {α : Type} : List (Str × α) → Str → Option α
  | [], _ => none
  | (k, v) :: d, key => if key = k then some v else dictLookup d key

def dictInsert {α : Type} : List (Str × α) → Str → α → List (Str × α)
  | [], key, v => [(key, v)]
  | (k, w) :: d, key, v =>
    if key = k then (k, v) :: d else (k, w) :: dictInsert d key v

/-! ## The generic scanner loop

`re.finditer` / `re.findall` try the pattern at every position from left to
right and continue after the end of each (non-empty) match.  `scanAll m l`
does the same for a positional matcher `m` that returns the extracted value
and the suffix following the match.  All matchers below consume at least one
character on success; fuel `l.length + 1` is enough to visit every position
once.  (The bump-by-one guard for a zero-progress match mirrors how `re`
advances past an empty match; no pattern in this file can produce one.) -/

def scanAllAux {α : Type} (m : Str → Option (α × Str)) : Nat → Str → List α
  | 0, _ => []
  | _ + 1, [] => (m []).elim [] (fun p => [p.1])
  | fuel + 1, c :: rest =>
    match m (c :: rest) with
    | some (a, suffix) =>
      a :: scanAllAux m fuel (if suffix.length = rest.length + 1 then rest else suffix)
    | none => scanAllAux m fuel rest

def scanAll {α : Type} (m : Str → Option (α × Str)) (l : Str) : List α :=
  scanAllAux m (l.length + 1) l

/-! ## Scanner 1: packages

`re.search(r'package\s+(\w+)', content)` — the first position where the
literal `package` is followed by one or more whitespace characters and then
one or more word characters; the word run is the package name. -/

def matchPackageAt (l : Str) : Option Str :=
  match dropLit "package".toList l with
  | none => none
  | some r =>
    let ws := r.takeWhile spaceChar
    let w := (r.dropWhile spaceChar).takeWhile wordChar
    if ws.isEmpty || w.isEmpty then none else some w

def searchPackage : Str → Option Str
  | [] => none
  | c :: rest =>
    match matchPackageAt (c :: rest) with
    | some w => some w
    | none => searchPackage rest

/-! ## Scanner 2: imports

`re.findall(r'import\s*\(\s*(.*?)\s*\)', content, re.DOTALL)` — after
`import`, optional whitespace, `(`, optional whitespace, the lazy group runs
up to the first `)` (DOTALL: across newlines) minus trailing whitespace.
Each matched group is one import block; inside each block
`re.finditer(r'"([^"]+)"', block)` extracts the quoted paths, which are
accumulated into one set per file. -/

def matchImportAt (l : Str) : Option (Str × Str) :=
  match dropLit "import".toList l with
  | none => none
  | some r =>
    match r.dropWhile spaceChar with
    | '(' :: r2 =>
      let r3 := r2.dropWhile spaceChar
      let body := r3.takeWhile (fun c => c != ')')
      match r3.dropWhile (fun c => c != ')') with
      | ')' :: r4 => some ((body.reverse.dropWhile spaceChar).reverse, r4)
      | _ => none
    | _ => none

def scanImports (content : Str) : List Str := scanAll matchImportAt content

/-- The pattern `"([^"]+)"`: a double quote, one or more non-quote
characters (the captured path), and a closing double quote. -/
def matchQuotedAt (l : Str) : Option (Str × Str) :=
  match l with
  | '"' :: r =>
    let inner := r.takeWhile (fun c => c != '"')
    if inner.isEmpty then none
    else
      match r.dropWhile (fun c => c != '"') with
      | '"' :: r2 => some (inner, r2)
      | _ => none
  | _ => none

def scanQuoted (block : Str) : List Str := scanAll matchQuotedAt block

/-- The union, over every matched import block of the file, of the quoted
paths inside it (`imports.add(imp.group(1))` into one Python set). -/
def importSet (content : Str) : Finset Str :=
  (((scanImports content).map scanQuoted).flatten).foldl (fun s i => insert i s) ∅

/-! ## Scanners 3 and 4: interfaces and structs

`type\s+(\w+)\s+interface\s*{([^}]+)}` and the identical pattern with
`struct`: the body is the non-empty run from the `{` to the *nearest* `}`,
which must exist.  The two regexes differ only in the keyword, so one
parameterised matcher embeds both. -/

def matchTypeDeclAt (kw : Str) (l : Str) : Option ((Str × Str) × Str) :=
  match dropLit "type".toList l with
  | none => none
  | some r =>
    let ws1 := r.takeWhile spaceChar
    let r1 := r.dropWhile spaceChar
    let name := r1.takeWhile wordChar
    let r2 := r1.dropWhile wordChar
    let ws2 := r2.takeWhile spaceChar
    let r3 := r2.dropWhile spaceChar
    if ws1.isEmpty || name.isEmpty || ws2.isEmpty then none
    else
      match dropLit kw r3 with
      | none => none
      | some r4 =>
        match r4.dropWhile spaceChar with
        | '{' :: r5 =>
          let body := r5.takeWhile (fun c => c != '}')
          if body.isEmpty then none
          else
            match r5.dropWhile (fun c => c != '}') with
            | '}' :: r6 => some ((name, body), r6)
            | _ => none
        | _ => none

def scanIfaces (content : Str) : List (Str × Str) :=
  scanAll (matchTypeDeclAt "interface".toList) content

def scanStructs (content : Str) : List (Str × Str) :=
  scanAll (matchTypeDeclAt "struct".toList) content

/-- Method extraction inside an interface body:
`(\w+)\([^)]*\)[^{]*` — a word run, `(`, anything up to a mandatory `)`,
then a greedy run of non-`{` characters that is part of the match (so the
scan resumes only after it). -/
def ifaceMethodAt (l : Str) : Option (Str × Str) :=
  let name := l.takeWhile wordChar
  if name.isEmpty then none
  else
    match l.dropWhile wordChar with
    | '(' :: r1 =>
      match r1.dropWhile (fun c => c != ')') with
      | ')' :: r2 => some (name, r2.dropWhile (fun c => c != '{'))
      | _ => none
    | _ => none

def ifaceMethods (body : Str) : List Str := scanAll ifaceMethodAt body

/-- Field extraction inside a struct body: `(\w+)\s+[^,\n]+`.
Here the greedy `\s+` genuinely backtracks: it tries the maximal whitespace
run first and shrinks (down to one character) until the next character is
neither `,` nor a newline; `[^,\n]+` then takes the maximal such run.
`fieldSplit r k` tries the split lengths `k, k-1, …, 1` in that order. -/

def notFieldEnd (c : Char) : Bool := !(c == ',' || c == '\n')

def fieldSplit (r : Str) : Nat → Option Str
  | 0 => none
  | k + 1 =>
    match (r.drop (k + 1)).head? with
    | some c =>
      if notFieldEnd c then some ((r.drop (k + 1)).dropWhile notFieldEnd)
      else fieldSplit r k
    | none => fieldSplit r k

def fieldAt (l : Str) : Option (Str × Str) :=
  let name := l.takeWhile wordChar
  if name.isEmpty then none
  else
    let r := l.dropWhile wordChar
    match fieldSplit r (r.takeWhile spaceChar).length with
    | some suffix => some (name, suffix)
    | none => none

def structFields (body : Str) : List Str := scanAll fieldAt body

/-! ## Scanner 5: methods

`func\s*\((\w+)\s+\*?(\w+)\)\s+(\w+)` — the receiver variable, the receiver
type (an optional `*` before it is consumed and discarded), and the method
name. -/

def methodAt (l : Str) : Option ((Str × Str × Str) × Str) :=
  match dropLit "func".toList l with
  | none => none
  | some r =>
    match r.dropWhile spaceChar with
    | '(' :: r1 =>
      let recv := r1.takeWhile wordChar
      let r2 := r1.dropWhile wordChar
      let ws := r2.takeWhile spaceChar
      let r3 := r2.dropWhile spaceChar
      if recv.isEmpty || ws.isEmpty then none
      else
        let r4 := match r3 with
                  | '*' :: t => t
                  | t => t
        let ty := r4.takeWhile wordChar
        if ty.isEmpty then none
        else
          match r4.dropWhile wordChar with
          | ')' :: r6 =>
            let ws2 := r6.takeWhile spaceChar
            let r7 := r6.dropWhile spaceChar
            let m := r7.takeWhile wordChar
            if ws2.isEmpty || m.isEmpty then none
            else some ((recv, ty, m), r7.dropWhile wordChar)
          | _ => none
    | _ => none

def scanMethods (content : Str) : List (Str × Str × Str) := scanAll methodAt content

/-! ## The analyzer state and `analyze_file`

One input file: its full path (the key of `imports`), its path relative to
the root directory (`os.path.relpath(file_path, self.root_dir)`, the value
stored in `packages`), and its text. -/

structure GoFile where
  path : Str
  relPath : Str
  content : Str

/-- The five collections of `GoCodeAnalyzer.__init__`.  Python sets become
`Finset Str`. -/
structure Analyzer where
  packages : List (Str × Finset Str)
  interfaces : List (Str × List Str)
  structs : List (Str × List Str)
  methods : List (Str × List Str)
  imports : List (Str × Finset Str)

def emptyAnalyzer : Analyzer := ⟨[], [], [], [], []⟩

/-- The package block of `analyze_file`: on a match, add the relative path
to the (possibly fresh) set for the package name. -/
def pkgStep (d : List (Str × Finset Str)) (relPath content : Str) :
    List (Str × Finset Str) :=
  match searchPackage content with
  | none => d
  | some name => dictInsert d name (insert relPath ((dictLookup d name).getD ∅))

/-- The import block of `analyze_file`: `if import_matches:` — an entry is
written whenever the block pattern matched at least once, even if the union
of quoted paths is empty. -/
def impStep (d : List (Str × Finset Str)) (path content : Str) :
    List (Str × Finset Str) :=
  if scanImports content = [] then d else dictInsert d path (importSet content)

/-- The interface loop: each match overwrites the entry for its name. -/
def ifaceStep (d : List (Str × List Str)) (content : Str) :
    List (Str × List Str) :=
  (scanIfaces content).foldl (fun d p => dictInsert d p.1 (ifaceMethods p.2)) d

/-- The struct loop: each match overwrites the entry for its name. -/
def structStep (d : List (Str × List Str)) (content : Str) :
    List (Str × List Str) :=
  (scanStructs content).foldl (fun d p => dictInsert d p.1 (structFields p.2)) d

/-- The method loop: each match appends the method name to the (possibly
fresh) list for the receiver type name. -/
def methodStep (d : List (Str × List Str)) (content : Str) :
    List (Str × List Str) :=
  (scanMethods content).foldl
    (fun d t => dictInsert d t.2.1 (((dictLookup d t.2.1).getD []) ++ [t.2.2])) d

/-- `GoCodeAnalyzer.analyze_file`: the five scanner blocks run in sequence;
each block reads and writes only its own collection, so the sequential
Python body is exactly this record update. -/
def analyze_file (a : Analyzer) (f : GoFile) : Analyzer :=
  { packages := pkgStep a.packages f.relPath f.content
    interfaces := ifaceStep a.interfaces f.content
    structs := structStep a.structs f.content
    methods := methodStep a.methods f.content
    imports := impStep a.imports f.path f.content }

/-- `GoCodeAnalyzer.analyze_directory`, abstracted over the file
enumeration order: fold `analyze_file` over the visited files. -/
def analyze_files (a : Analyzer) (fs : List GoFile) : Analyzer :=
  fs.foldl analyze_file a

/-- The last value assigned to key `k` by an in-order sequence of
assignments (the within-file and across-file overwrite order). -/
def lastAssoc {β : Type} (k : Str) : List (Str × β) → Option β
  | [] => none
  | (k', v) :: rest =>
    match lastAssoc k rest with
    | some w => some w
    | none => if k = k' then some v else none

/-- The method names appended under receiver type `ty` by a list of
method-scanner matches, in order of appearance. -/
def methAppends (ty : Str) (ms : List (Str × Str × Str)) : List Str :=
  ms.filterMap (fun t => if t.2.1 = ty then some t.2.2 else none)

/-- Pointwise equality of two dictionaries: same value at every key. -/
def lookupEq {α : Type} (d1 d2 : List (Str × α)) : Prop :=
  ∀ k, dictLookup d1 k = dictLookup d2 k

/-- The package collection after a walk, as a fold of package steps. -/
def pkgFold (d : List (Str × Finset Str)) (fs : List GoFile) :
    List (Str × Finset Str) :=
  fs.foldl (fun d f => pkgStep d f.relPath f.content) d

/-- The import collection after a walk, as a fold of import steps. -/
def impFold (d : List (Str × Finset Str)) (fs : List GoFile) :
    List (Str × Finset Str) :=
  fs.foldl (fun d f => impStep d f.path f.content) d

/-- Concrete analyzer state with one entry in each collection. -/
def c9A : Analyzer :=
  ⟨[("main".toList, {"old.go".toList})], [("I".toList, ["M".toList])],
    [("S".toList, ["F".toList])], [("T".toList, ["M1".toList])],
    [("old.go".toList, {"fmt".toList})]⟩

/-- Concrete file that touches every collection except the existing keys. -/
def c9F : GoFile :=
  ⟨"new.go".toList, "new.go".toList,
    "package main\nfunc (x T) M2() \x7b\x7d\nimport (\n\"os\"\n)".toList⟩

/-! ## Association-list lemmas -/

theorem analyze_file_packages (a : Analyzer) (f : GoFile) :
    (analyze_file a f).packages = pkgStep a.packages f.relPath f.content := rfl

theorem analyze_file_imports (a : Analyzer) (f : GoFile) :
    (analyze_file a f).imports = impStep a.imports f.path f.content := rfl

theorem analyze_file_interfaces (a : Analyzer) (f : GoFile) :
    (analyze_file a f).interfaces = ifaceStep a.interfaces f.content := rfl

theorem analyze_file_structs (a : Analyzer) (f : GoFile) :
    (analyze_file a f).structs = structStep a.structs f.content := rfl

theorem analyze_file_methods (a : Analyzer) (f : GoFile) :
    (analyze_file a f).methods = methodStep a.methods f.content := rfl

theorem dictLookup_insert {α : Type} (d : List (Str × α)) (k : Str) (v : α)
    (key : Str) :
    dictLookup (dictInsert d k v) key = if key = k then some v else dictLookup d key := by
  induction d with
  | nil => simp [dictInsert, dictLookup]
  | cons p d ih =>
    obtain ⟨k', w⟩ := p
    by_cases h : k = k'
    · subst h
      simp only [dictInsert, if_pos rfl, dictLookup]
      by_cases h1 : key = k <;> simp [h1]
    · simp only [dictInsert, if_neg h, dictLookup, ih]
      by_cases h1 : key = k' <;> by_cases h2 : key = k <;> simp_all

/-- Folding keyed overwrites: the final value at `k` is the image of the
last pair assigned to `k`, or the original entry when none was. -/
theorem foldInsertMap_lookup {β α : Type} (g : β → α) (ps : List (Str × β))
    (d : List (Str × α)) (k : Str) :
    dictLookup (ps.foldl (fun d p => dictInsert d p.1 (g p.2)) d) k =
      (lastAssoc k ps).elim (dictLookup d k) (fun v => some (g v)) := by
  induction ps generalizing d with
  | nil => rfl
  | cons p ps ih =>
    obtain ⟨k', v⟩ := p
    simp only [List.foldl_cons, ih, lastAssoc]
    cases h : lastAssoc k ps with
    | some w => rfl
    | none =>
      simp only [Option.elim, dictLookup_insert]
      by_cases h1 : k = k' <;> simp [h1]

/-- Folding the method-scanner matches: the list at `ty` is the old list
extended by every method name whose receiver type is `ty`, in order. -/
theorem methodFold_lookup (ms : List (Str × Str × Str))
    (d : List (Str × List Str)) (ty : Str) :
    dictLookup (ms.foldl
        (fun d t => dictInsert d t.2.1 (((dictLookup d t.2.1).getD []) ++ [t.2.2])) d) ty =
      if methAppends ty ms = [] then dictLookup d ty
      else some (((dictLookup d ty).getD []) ++ methAppends ty ms) := by
  induction ms generalizing d with
  | nil => simp [methAppends]
  | cons t ms ih =>
    obtain ⟨r, tn, mn⟩ := t
    by_cases h : tn = ty
    · subst h
      simp only [List.foldl_cons, ih, methAppends, List.filterMap_cons, if_pos rfl,
        dictLookup_insert]
      by_cases h2 : methAppends tn ms = [] <;>
        simp_all [methAppends, List.append_assoc]
    · simp only [List.foldl_cons, ih, methAppends, List.filterMap_cons, if_neg h,
        dictLookup_insert, if_neg (fun hh : ty = tn => h hh.symm)]

/-! ## Characterizations of the five steps -/

theorem pkgStep_lookup (d : List (Str × Finset Str)) (rel content k : Str) :
    dictLookup (pkgStep d rel content) k =
      (searchPackage content).elim (dictLookup d k) (fun n =>
        if k = n then some (insert rel ((dictLookup d n).getD ∅)) else dictLookup d k) := by
  unfold pkgStep
  cases searchPackage content with
  | none => rfl
  | some n => simp [dictLookup_insert]

theorem impStep_lookup (d : List (Str × Finset Str)) (path content k : Str) :
    dictLookup (impStep d path content) k =
      if scanImports content = [] then dictLookup d k
      else if k = path then some (importSet content) else dictLookup d k := by
  unfold impStep
  split <;> simp [dictLookup_insert]

theorem ifaceStep_lookup (d : List (Str × List Str)) (content k : Str) :
    dictLookup (ifaceStep d content) k =
      (lastAssoc k (scanIfaces content)).elim (dictLookup d k)
        (fun b => some (ifaceMethods b)) := by
  unfold ifaceStep
  exact foldInsertMap_lookup ifaceMethods (scanIfaces content) d k

theorem structStep_lookup (d : List (Str × List Str)) (content k : Str) :
    dictLookup (structStep d content) k =
      (lastAssoc k (scanStructs content)).elim (dictLookup d k)
        (fun b => some (structFields b)) := by
  unfold structStep
  exact foldInsertMap_lookup structFields (scanStructs content) d k

theorem methodStep_lookup (d : List (Str × List Str)) (content ty : Str) :
    dictLookup (methodStep d content) ty =
      if methAppends ty (scanMethods content) = [] then dictLookup d ty
      else some (((dictLookup d ty).getD []) ++ methAppends ty (scanMethods content)) :=
  methodFold_lookup (scanMethods content) d ty

/-! ## Claims -/

/-- C1, counterexample: for a file containing exactly
`type Shape interface { Area() float64; Perimeter() float64 }`, the
Interfaces entry for `Shape` is NOT the two-element sequence
`[Area, Perimeter]`: the trailing `[^{]*` of the method pattern consumes
`float64; Perimeter() float64` as part of the first match, so `Perimeter`
is never matched. -/
theorem c1_shape_not_two_methods :
    dictLookup (analyze_file emptyAnalyzer
        ⟨"shape.go".toList, "shape.go".toList,
          "type Shape interface \x7b Area() float64; Perimeter() float64 \x7d".toList⟩).interfaces
      "Shape".toList ≠ some ["Area".toList, "Perimeter".toList] := by
  decide

/-- C1, amended: after processing a file whose text is the declaration
`type Shape interface { Area() float64; Perimeter() float64 }`, the
Interfaces collection maps `Shape` to exactly the one-element sequence
`[Area]` (regardless of the prior analyzer state): only the first method of
an interface body is captured, because the `[^{]*` tail of the pattern
`(\w+)\([^)]*\)[^{]*` swallows the rest of the body. -/
theorem c1_interfaces_first_method_only (a : Analyzer) (p r : Str) :
    dictLookup (analyze_file a
        ⟨p, r,
          "type Shape interface \x7b Area() float64; Perimeter() float64 \x7d".toList⟩).interfaces
      "Shape".toList = some ["Area".toList] := by
  have h := ifaceStep_lookup a.interfaces
      "type Shape interface \x7b Area() float64; Perimeter() float64 \x7d".toList "Shape".toList
  rw [show lastAssoc "Shape".toList
        (scanIfaces "type Shape interface \x7b Area() float64; Perimeter() float64 \x7d".toList)
        = some " Area() float64; Perimeter() float64 ".toList from by decide] at h
  simp only [Option.elim] at h
  exact h.trans (by decide)

/-- C3, counterexample: the file `import ( )` has an import block that the
block pattern matches with an empty group, so zero quoted import paths are
found; yet `analyze_file` creates an Imports entry for the file's path,
mapping it to the empty set — the key is present, not absent as claimed. -/
theorem c3_empty_import_block_creates_entry :
    importSet "import ( )".toList = ∅ ∧
    dictLookup (analyze_file emptyAnalyzer
        ⟨"a.go".toList, "a.go".toList, "import ( )".toList⟩).imports
      "a.go".toList = some ∅ := by
  constructor
  · decide
  · decide

/-- C3, amended: `analyze_file` writes an Imports entry for the processed
file's path exactly when the import block pattern matched at least once;
with no block match the Imports collection is untouched, and a match whose
blocks contain no quoted string yields an entry mapping to the empty set
(the value is always the full set of quoted paths of all matched blocks). -/
theorem c3_imports_entry_characterization (a : Analyzer) (f : GoFile) (k : Str) :
    dictLookup (analyze_file a f).imports k =
      if scanImports f.content = [] then dictLookup a.imports k
      else if k = f.path then some (importSet f.content) else dictLookup a.imports k :=
  impStep_lookup a.imports f.path f.content k

/-- C4: last-write-wins for Structs and Interfaces.  If the file scanned
last assigns body `b` as its final assignment to name `k`, the final entry
under `k` is exactly the extraction from `b` — independent of the earlier
file and of all prior state, hence never a union or merge. -/
theorem c4_last_write_wins (a : Analyzer) (f g : GoFile) (k : Str) :
    (∀ b, lastAssoc k (scanStructs g.content) = some b →
      dictLookup (analyze_file (analyze_file a f) g).structs k = some (structFields b)) ∧
    (∀ b, lastAssoc k (scanIfaces g.content) = some b →
      dictLookup (analyze_file (analyze_file a f) g).interfaces k = some (ifaceMethods b)) := by
  constructor
  · intro b hb
    have h := structStep_lookup (analyze_file a f).structs g.content k
    rw [hb] at h
    exact h
  · intro b hb
    have h := ifaceStep_lookup (analyze_file a f).interfaces g.content k
    rw [hb] at h
    exact h

/-- C4, witness: two files with differently-bodied `type Foo struct`; the
final entry is the field list of the second file only. -/
theorem c4_last_write_wins_witness :
    dictLookup (analyze_file (analyze_file emptyAnalyzer
        ⟨"a.go".toList, "a.go".toList, "type Foo struct \x7b A int\n\x7d".toList⟩)
        ⟨"b.go".toList, "b.go".toList, "type Foo struct \x7b B int\n\x7d".toList⟩).structs
      "Foo".toList = some ["B".toList] := by
  have h := (c4_last_write_wins emptyAnalyzer
      ⟨"a.go".toList, "a.go".toList, "type Foo struct \x7b A int\n\x7d".toList⟩
      ⟨"b.go".toList, "b.go".toList, "type Foo struct \x7b B int\n\x7d".toList⟩
      "Foo".toList).1 " B int\n".toList (by decide)
  exact h.trans (by decide)

/-- C5: the Methods list under a receiver type `ty` is the previous list
extended, in order of appearance, by one entry per method-pattern match
whose receiver type is `ty` (pure append, no overwrite); and concretely the
scanner yields the same type key `Square` for a pointer receiver
`(s *Square)` and a value receiver `(sq Square)` — the `*` and the receiver
variable name do not reach the key. -/
theorem c5_method_append :
    (∀ (a : Analyzer) (f : GoFile) (ty : Str),
      dictLookup (analyze_file a f).methods ty =
        if methAppends ty (scanMethods f.content) = [] then dictLookup a.methods ty
        else some (((dictLookup a.methods ty).getD []) ++ methAppends ty (scanMethods f.content))) ∧
    scanMethods "func (s *Square) Area() float64 \x7b".toList
      = [("s".toList, "Square".toList, "Area".toList)] ∧
    scanMethods "func (sq Square) Area() float64 \x7b".toList
      = [("sq".toList, "Square".toList, "Area".toList)] := by
  refine ⟨fun a f ty => methodStep_lookup a.methods f.content ty, by decide, by decide⟩

/-- C6: two files both declaring `package foo`: processed in either order,
the Packages entry for `foo` is the same set, and it contains the relative
paths of both files. -/
theorem c6_package_two_files (a : Analyzer) (f g : GoFile) (n : Str)
    (hf : searchPackage f.content = some n) (hg : searchPackage g.content = some n) :
    dictLookup (analyze_file (analyze_file a f) g).packages n
        = some (insert g.relPath (insert f.relPath ((dictLookup a.packages n).getD ∅))) ∧
    dictLookup (analyze_file (analyze_file a g) f).packages n
        = some (insert g.relPath (insert f.relPath ((dictLookup a.packages n).getD ∅))) ∧
    f.relPath ∈ insert g.relPath (insert f.relPath ((dictLookup a.packages n).getD ∅)) ∧
    g.relPath ∈ insert g.relPath (insert f.relPath ((dictLookup a.packages n).getD ∅)) := by
  have hfg : dictLookup (analyze_file a f).packages n
      = some (insert f.relPath ((dictLookup a.packages n).getD ∅)) := by
    have h := pkgStep_lookup a.packages f.relPath f.content n
    rw [hf] at h
    simpa using h
  have hgf : dictLookup (analyze_file a g).packages n
      = some (insert g.relPath ((dictLookup a.packages n).getD ∅)) := by
    have h := pkgStep_lookup a.packages g.relPath g.content n
    rw [hg] at h
    simpa using h
  refine ⟨?_, ?_, ?_, ?_⟩
  · have h := pkgStep_lookup (analyze_file a f).packages g.relPath g.content n
    rw [hg] at h
    simp only [Option.elim, if_pos rfl, hfg, Option.getD_some] at h
    simpa using h
  · have h := pkgStep_lookup (analyze_file a g).packages f.relPath f.content n
    rw [hf] at h
    simp only [Option.elim, if_pos rfl, hgf, Option.getD_some] at h
    rw [Finset.Insert.comm] at h
    simpa using h
  · exact Finset.mem_insert_of_mem (Finset.mem_insert_self _ _)
  · exact Finset.mem_insert_self _ _

/-- C6, witness: two concrete files declaring `package foo`; the entry for
`foo` after processing them holds both relative paths. -/
theorem c6_package_two_files_witness :
    dictLookup (analyze_file (analyze_file emptyAnalyzer
        ⟨"d/a.go".toList, "a.go".toList, "package foo\n".toList⟩)
        ⟨"d/b.go".toList, "b.go".toList, "package foo\ntype T struct \x7b X int\n\x7d".toList⟩).packages
      "foo".toList = some {"b.go".toList, "a.go".toList} := by
  have h := (c6_package_two_files emptyAnalyzer
      ⟨"d/a.go".toList, "a.go".toList, "package foo\n".toList⟩
      ⟨"d/b.go".toList, "b.go".toList, "package foo\ntype T struct \x7b X int\n\x7d".toList⟩
      "foo".toList (by decide) (by decide)).1
  exact h.trans (by decide)

/-- C7: when the package pattern finds no match in a file's text, the
Packages collection is left exactly as it was; when it finds one, the
single (first) match alone determines the file's contribution. -/
theorem c7_package_absent_or_first (a : Analyzer) (f : GoFile) :
    (searchPackage f.content = none → (analyze_file a f).packages = a.packages) ∧
    (∀ n, searchPackage f.content = some n →
      (analyze_file a f).packages
        = dictInsert a.packages n (insert f.relPath ((dictLookup a.packages n).getD ∅))) := by
  constructor
  · intro h
    show pkgStep a.packages f.relPath f.content = a.packages
    unfold pkgStep
    rw [h]
  · intro n h
    show pkgStep a.packages f.relPath f.content = _
    unfold pkgStep
    rw [h]

/-- C7, witness: a file with no package declaration adds nothing; a file
declaring two packages contributes only the first (`alpha`, not `beta`). -/
theorem c7_package_absent_or_first_witness :
    (analyze_file emptyAnalyzer
        ⟨"x.go".toList, "x.go".toList, "type T struct \x7b X int\n\x7d".toList⟩).packages
      = emptyAnalyzer.packages ∧
    (analyze_file emptyAnalyzer
        ⟨"y.go".toList, "y.go".toList, "package alpha\npackage beta\n".toList⟩).packages
      = dictInsert emptyAnalyzer.packages "alpha".toList
          (insert "y.go".toList ((dictLookup emptyAnalyzer.packages "alpha".toList).getD ∅)) := by
  constructor
  · exact (c7_package_absent_or_first emptyAnalyzer
      ⟨"x.go".toList, "x.go".toList, "type T struct \x7b X int\n\x7d".toList⟩).1 (by decide)
  · exact (c7_package_absent_or_first emptyAnalyzer
      ⟨"y.go".toList, "y.go".toList, "package alpha\npackage beta\n".toList⟩).2
      "alpha".toList (by decide)

/-- C8: the scanning phase is a total function of the input text — it is
defined for every content, however malformed — and a scanner that finds no
match leaves its collection exactly unchanged: absent or failed pattern
matches contribute nothing and never abort the scan. -/
theorem c8_no_match_contributes_nothing (a : Analyzer) (f : GoFile) :
    (searchPackage f.content = none → (analyze_file a f).packages = a.packages) ∧
    (scanImports f.content = [] → (analyze_file a f).imports = a.imports) ∧
    (scanIfaces f.content = [] → (analyze_file a f).interfaces = a.interfaces) ∧
    (scanStructs f.content = [] → (analyze_file a f).structs = a.structs) ∧
    (scanMethods f.content = [] → (analyze_file a f).methods = a.methods) := by
  refine ⟨fun h => ?_, fun h => ?_, fun h => ?_, fun h => ?_, fun h => ?_⟩
  · show pkgStep a.packages f.relPath f.content = a.packages
    unfold pkgStep
    rw [h]
  · show impStep a.imports f.path f.content = a.imports
    unfold impStep
    rw [if_pos h]
  · show ifaceStep a.interfaces f.content = a.interfaces
    unfold ifaceStep
    rw [h]
    rfl
  · show structStep a.structs f.content = a.structs
    unfold structStep
    rw [h]
    rfl
  · show methodStep a.methods f.content = a.methods
    unfold methodStep
    rw [h]
    rfl

/-- C8, witness: a brace-imbalanced, quote-imbalanced text on which every
scanner finds nothing; all five collections are untouched. -/
theorem c8_no_match_contributes_nothing_witness :
    (analyze_file emptyAnalyzer
        ⟨"m.go".toList, "m.go".toList, "\x7d \x7b ) ( \" import ( type func".toList⟩).packages
      = emptyAnalyzer.packages ∧
    (analyze_file emptyAnalyzer
        ⟨"m.go".toList, "m.go".toList, "\x7d \x7b ) ( \" import ( type func".toList⟩).imports
      = emptyAnalyzer.imports ∧
    (analyze_file emptyAnalyzer
        ⟨"m.go".toList, "m.go".toList, "\x7d \x7b ) ( \" import ( type func".toList⟩).interfaces
      = emptyAnalyzer.interfaces ∧
    (analyze_file emptyAnalyzer
        ⟨"m.go".toList, "m.go".toList, "\x7d \x7b ) ( \" import ( type func".toList⟩).structs
      = emptyAnalyzer.structs ∧
    (analyze_file emptyAnalyzer
        ⟨"m.go".toList, "m.go".toList, "\x7d \x7b ) ( \" import ( type func".toList⟩).methods
      = emptyAnalyzer.methods := by
  have h := c8_no_match_contributes_nothing emptyAnalyzer
      ⟨"m.go".toList, "m.go".toList, "\x7d \x7b ) ( \" import ( type func".toList⟩
  exact ⟨h.1 (by decide), h.2.1 (by decide), h.2.2.1 (by decide),
    h.2.2.2.1 (by decide), h.2.2.2.2 (by decide)⟩

/-- C9: one `analyze_file` invocation populates monotonically: a Packages
entry only gains paths (never loses its key), a Methods list is only ever
extended on the right, the Imports collection is only written at the
processed file's own path and keeps every existing key, and Interfaces and
Structs entries are added or replaced by key but never deleted. -/
theorem c9_monotonic (a : Analyzer) (f : GoFile) :
    (∀ k S, dictLookup a.packages k = some S →
      ∃ T, dictLookup (analyze_file a f).packages k = some T ∧ S ⊆ T) ∧
    (∀ k l, dictLookup a.methods k = some l →
      ∃ t, dictLookup (analyze_file a f).methods k = some (l ++ t)) ∧
    (∀ k, k ≠ f.path → dictLookup (analyze_file a f).imports k = dictLookup a.imports k) ∧
    (∀ k, (dictLookup a.imports k).isSome = true →
      (dictLookup (analyze_file a f).imports k).isSome = true) ∧
    (∀ k, (dictLookup a.interfaces k).isSome = true →
      (dictLookup (analyze_file a f).interfaces k).isSome = true) ∧
    (∀ k, (dictLookup a.structs k).isSome = true →
      (dictLookup (analyze_file a f).structs k).isSome = true) := by
  refine ⟨?_, ?_, ?_, ?_, ?_, ?_⟩
  · intro k S hS
    rw [analyze_file_packages]
    have h := pkgStep_lookup a.packages f.relPath f.content k
    cases hsp : searchPackage f.content with
    | none =>
      rw [hsp] at h
      exact ⟨S, by rw [h, hS]; rfl, Finset.Subset.refl S⟩
    | some n =>
      rw [hsp] at h
      simp only [Option.elim] at h
      by_cases hk : k = n
      · subst hk
        rw [if_pos rfl, hS] at h
        exact ⟨insert f.relPath S, by rw [h]; rfl, Finset.subset_insert _ S⟩
      · rw [if_neg hk] at h
        exact ⟨S, by rw [h, hS], Finset.Subset.refl S⟩
  · intro k l hl
    rw [analyze_file_methods]
    have h := methodStep_lookup a.methods f.content k
    by_cases hm : methAppends k (scanMethods f.content) = []
    · rw [if_pos hm] at h
      exact ⟨[], by rw [List.append_nil, h, hl]⟩
    · rw [if_neg hm, hl] at h
      exact ⟨methAppends k (scanMethods f.content), by rw [h]; rfl⟩
  · intro k hk
    rw [analyze_file_imports]
    have h := impStep_lookup a.imports f.path f.content k
    rw [if_neg hk] at h
    split at h <;> exact h
  · intro k hk
    rw [analyze_file_imports]
    have h := impStep_lookup a.imports f.path f.content k
    split at h
    · rw [h]; exact hk
    · split at h
      · rw [h]; rfl
      · rw [h]; exact hk
  · intro k hk
    rw [analyze_file_interfaces]
    have h := ifaceStep_lookup a.interfaces f.content k
    cases hl : lastAssoc k (scanIfaces f.content) with
    | none => rw [hl] at h; rw [h]; exact hk
    | some b => rw [hl] at h; rw [h]; rfl
  · intro k hk
    rw [analyze_file_structs]
    have h := structStep_lookup a.structs f.content k
    cases hl : lastAssoc k (scanStructs f.content) with
    | none => rw [hl] at h; rw [h]; exact hk
    | some b => rw [hl] at h; rw [h]; rfl

/-- C9, witness: concretely populated collections survive one more file. -/
theorem c9_monotonic_witness :
    (∃ T, dictLookup (analyze_file c9A c9F).packages "main".toList = some T ∧
      ({"old.go".toList} : Finset Str) ⊆ T) ∧
    (∃ t, dictLookup (analyze_file c9A c9F).methods "T".toList
      = some (["M1".toList] ++ t)) ∧
    dictLookup (analyze_file c9A c9F).imports "old.go".toList
      = dictLookup c9A.imports "old.go".toList ∧
    (dictLookup (analyze_file c9A c9F).imports "old.go".toList).isSome = true ∧
    (dictLookup (analyze_file c9A c9F).interfaces "I".toList).isSome = true ∧
    (dictLookup (analyze_file c9A c9F).structs "S".toList).isSome = true := by
  have h := c9_monotonic c9A c9F
  exact ⟨h.1 "main".toList {"old.go".toList} (by decide),
    h.2.1 "T".toList ["M1".toList] (by decide),
    h.2.2.1 "old.go".toList (by decide),
    h.2.2.2.1 "old.go".toList (by decide),
    h.2.2.2.2.1 "I".toList (by decide),
    h.2.2.2.2.2 "S".toList (by decide)⟩

/-! ## Order (in)dependence of the directory walk (C2) -/

theorem analyze_files_packages (fs : List GoFile) (a : Analyzer) :
    (analyze_files a fs).packages = pkgFold a.packages fs := by
  induction fs generalizing a with
  | nil => rfl
  | cons f fs ih => exact ih (analyze_file a f)

theorem analyze_files_imports (fs : List GoFile) (a : Analyzer) :
    (analyze_files a fs).imports = impFold a.imports fs := by
  induction fs generalizing a with
  | nil => rfl
  | cons f fs ih => exact ih (analyze_file a f)

theorem pkgStep_congr {d1 d2 : List (Str × Finset Str)} (h : lookupEq d1 d2)
    (rel content : Str) : lookupEq (pkgStep d1 rel content) (pkgStep d2 rel content) := by
  intro k
  rw [pkgStep_lookup, pkgStep_lookup]
  cases searchPackage content with
  | none => exact h k
  | some n => simp only [Option.elim, h n, h k]

theorem impStep_congr {d1 d2 : List (Str × Finset Str)} (h : lookupEq d1 d2)
    (path content : Str) : lookupEq (impStep d1 path content) (impStep d2 path content) := by
  intro k
  rw [impStep_lookup, impStep_lookup]
  simp only [h k]

/-- Two package-scanner steps commute up to pointwise lookup: `Finset`
insertion into the per-package path set is commutative. -/
theorem pkgStep_swap (d : List (Str × Finset Str)) (r1 c1 r2 c2 : Str) :
    lookupEq (pkgStep (pkgStep d r1 c1) r2 c2) (pkgStep (pkgStep d r2 c2) r1 c1) := by
  intro k
  simp only [pkgStep_lookup]
  cases h1 : searchPackage c1 with
  | none =>
    cases h2 : searchPackage c2 <;> simp only [Option.elim]
  | some n1 =>
    cases h2 : searchPackage c2 with
    | none => simp only [Option.elim]
    | some n2 =>
      simp only [Option.elim]
      by_cases e12 : n2 = n1
      · subst e12
        by_cases ek : k = n2 <;> simp [ek, Finset.Insert.comm]
      · by_cases ek2 : k = n2 <;> by_cases ek1 : k = n1 <;>
          simp_all [if_neg (fun h : n1 = n2 => e12 h.symm)]

/-- Two import-scanner steps on files with distinct paths commute up to
pointwise lookup: each one writes only its own key, with a value that does
not depend on the dictionary. -/
theorem impStep_swap (d : List (Str × Finset Str)) (p1 c1 p2 c2 : Str)
    (hp : p1 ≠ p2) :
    lookupEq (impStep (impStep d p1 c1) p2 c2) (impStep (impStep d p2 c2) p1 c1) := by
  intro k
  simp only [impStep_lookup]
  by_cases e1 : scanImports c1 = [] <;> by_cases e2 : scanImports c2 = [] <;>
    by_cases k1 : k = p1 <;> by_cases k2 : k = p2 <;>
      simp_all

theorem pkgFold_congr {d1 d2 : List (Str × Finset Str)} (h : lookupEq d1 d2)
    (fs : List GoFile) : lookupEq (pkgFold d1 fs) (pkgFold d2 fs) := by
  induction fs generalizing d1 d2 with
  | nil => exact h
  | cons f fs ih => exact ih (pkgStep_congr h f.relPath f.content)

theorem impFold_congr {d1 d2 : List (Str × Finset Str)} (h : lookupEq d1 d2)
    (fs : List GoFile) : lookupEq (impFold d1 fs) (impFold d2 fs) := by
  induction fs generalizing d1 d2 with
  | nil => exact h
  | cons f fs ih => exact ih (impStep_congr h f.path f.content)

theorem pkgFold_perm {fs1 fs2 : List GoFile} (h : fs1.Perm fs2) :
    ∀ d, lookupEq (pkgFold d fs1) (pkgFold d fs2) := by
  induction h with
  | nil => intro d k; rfl
  | cons x _ ih => intro d; exact ih (pkgStep d x.relPath x.content)
  | swap x y l =>
    intro d
    exact pkgFold_congr (pkgStep_swap d y.relPath y.content x.relPath x.content) l
  | trans _ _ ih1 ih2 => intro d k; exact (ih1 d k).trans (ih2 d k)

theorem impFold_perm {fs1 fs2 : List GoFile} (h : fs1.Perm fs2) :
    fs1.Pairwise (fun f g => f.path ≠ g.path) →
    ∀ d, lookupEq (impFold d fs1) (impFold d fs2) := by
  induction h with
  | nil => intro _ d k; rfl
  | cons x _ ih => intro hp d; exact ih hp.of_cons (impStep d x.path x.content)
  | swap x y l =>
    intro hp d
    have hyx : y.path ≠ x.path :=
      (List.pairwise_cons.mp hp).1 x (List.mem_cons_self x l)
    exact impFold_congr (impStep_swap d y.path y.content x.path x.content hyx) l
  | trans h12 _ ih1 ih2 =>
    intro hp d k
    have hp2 := (h12.pairwise_iff (fun hxy => hxy.symm)).mp hp
    exact (ih1 hp d k).trans (ih2 hp2 d k)

/-- C2, counterexample: two fixed files, each contributing one method to
receiver type `X`; the two visitation orders leave different Methods
contents (`[A, B]` versus `[B, A]`), so the final contents of all five
collections are not visitation-order independent. -/
theorem c2_methods_order_dependent :
    dictLookup (analyze_files emptyAnalyzer
        [⟨"a.go".toList, "a.go".toList, "func (s X) A() \x7b\x7d".toList⟩,
         ⟨"b.go".toList, "b.go".toList, "func (t X) B() \x7b\x7d".toList⟩]).methods "X".toList
      ≠ dictLookup (analyze_files emptyAnalyzer
        [⟨"b.go".toList, "b.go".toList, "func (t X) B() \x7b\x7d".toList⟩,
         ⟨"a.go".toList, "a.go".toList, "func (s X) A() \x7b\x7d".toList⟩]).methods "X".toList := by
  decide

/-- C2, amended: visitation order cannot change the final contents of
Packages and of Imports (for files with pairwise distinct paths, as on a
real filesystem); the other three collections may depend on the order —
Methods lists interleave in visitation order, and Interfaces/Structs follow
last-write-wins. -/
theorem c2_pkg_imports_order_independent (fs1 fs2 : List GoFile) (a : Analyzer)
    (hperm : fs1.Perm fs2)
    (hdist : fs1.Pairwise (fun f g => f.path ≠ g.path)) (k : Str) :
    dictLookup (analyze_files a fs1).packages k
      = dictLookup (analyze_files a fs2).packages k ∧
    dictLookup (analyze_files a fs1).imports k
      = dictLookup (analyze_files a fs2).imports k := by
  constructor
  · rw [analyze_files_packages, analyze_files_packages]
    exact pkgFold_perm hperm a.packages k
  · rw [analyze_files_imports, analyze_files_imports]
    exact impFold_perm hperm hdist a.imports k

/-- C2, witness: two concrete files, both `package foo`, with two different
one-element import sets, visited in both orders. -/
theorem c2_pkg_imports_order_independent_witness :
    dictLookup (analyze_files emptyAnalyzer
        [⟨"a.go".toList, "a.go".toList, "package foo\nimport (\n\"fmt\"\n)".toList⟩,
         ⟨"b.go".toList, "b.go".toList, "package foo\nimport (\n\"os\"\n)".toList⟩]).packages
        "foo".toList
      = dictLookup (analyze_files emptyAnalyzer
        [⟨"b.go".toList, "b.go".toList, "package foo\nimport (\n\"os\"\n)".toList⟩,
         ⟨"a.go".toList, "a.go".toList, "package foo\nimport (\n\"fmt\"\n)".toList⟩]).packages
        "foo".toList ∧
    dictLookup (analyze_files emptyAnalyzer
        [⟨"a.go".toList, "a.go".toList, "package foo\nimport (\n\"fmt\"\n)".toList⟩,
         ⟨"b.go".toList, "b.go".toList, "package foo\nimport (\n\"os\"\n)".toList⟩]).imports
        "a.go".toList
      = dictLookup (analyze_files emptyAnalyzer
        [⟨"b.go".toList, "b.go".toList, "package foo\nimport (\n\"os\"\n)".toList⟩,
         ⟨"a.go".toList, "a.go".toList, "package foo\nimport (\n\"fmt\"\n)".toList⟩]).imports
        "a.go".toList := by
  constructor
  · exact (c2_pkg_imports_order_independent _ _ emptyAnalyzer
      (List.Perm.swap _ _ [])
      (by simp [List.pairwise_cons]) "foo".toList).1
  · exact (c2_pkg_imports_order_independent _ _ emptyAnalyzer
      (List.Perm.swap _ _ [])
      (by simp [List.pairwise_cons]) "a.go".toList).2

/-! ## Empty-bodied type declarations (C10) -/

theorem spaceChar_eq_false_of_wordChar {c : Char} (h : wordChar c = true) :
    spaceChar c = false := by
  by_contra hs
  rw [Bool.not_eq_false] at hs
  simp only [spaceChar, Bool.or_eq_true, beq_iff_eq] at hs
  rcases hs with ((((h1 | h1) | h1) | h1) | h1) | h1 <;> subst h1 <;>
    exact absurd h (by decide)

theorem takeWhile_all_append {p : Char → Bool} (xs : Str) (y : Char) (ys : Str)
    (hx : ∀ x ∈ xs, p x = true) (hy : p y = false) :
    (xs ++ y :: ys).takeWhile p = xs ∧ (xs ++ y :: ys).dropWhile p = y :: ys := by
  induction xs with
  | nil => simp [List.takeWhile_cons, List.dropWhile_cons, hy]
  | cons a xs ih =>
    have ha : p a = true := hx a (by simp)
    have h2 := ih (fun x hx' => hx x (by simp [hx']))
    simp [List.takeWhile_cons, List.dropWhile_cons, ha, h2.1, h2.2]

theorem dropLit_self_append (xs l : Str) : dropLit xs (xs ++ l) = some l := by
  induction xs with
  | nil => rfl
  | cons a xs ih => simp [dropLit, ih]

/-- At a declaration site `type <name> <keyword> {}` the type-declaration
pattern fails for every continuation of the text: the `([^}]+)` body needs
at least one non-`}` character after the `{`, and the next character is the
closing `}`. -/
theorem matchTypeDecl_empty_site (k0 : Char) (kw1 name rest : Str)
    (hk0 : spaceChar k0 = false) (hne : name ≠ [])
    (hw : ∀ c ∈ name, wordChar c = true) :
    matchTypeDeclAt (k0 :: kw1)
      ('t' :: 'y' :: 'p' :: 'e' :: ' ' ::
        (name ++ (' ' :: ((k0 :: kw1) ++ (' ' :: '{' :: '}' :: rest))))) = none := by
  obtain ⟨n0, name1, rfl⟩ : ∃ c l, name = c :: l := by
    cases name with
    | nil => exact absurd rfl hne
    | cons c l => exact ⟨c, l, rfl⟩
  have hn0 : wordChar n0 = true := hw n0 (by simp)
  have hn0s : spaceChar n0 = false := spaceChar_eq_false_of_wordChar hn0
  have e1 := takeWhile_all_append (p := wordChar) (n0 :: name1) ' '
      ((k0 :: kw1) ++ (' ' :: '{' :: '}' :: rest)) hw (by decide)
  simp only [List.cons_append] at e1
  have s1 : spaceChar ' ' = true := rfl
  have s2 : spaceChar '{' = false := rfl
  have b1 : (('}' : Char) != '}') = false := rfl
  have dk := dropLit_self_append (k0 :: kw1) (' ' :: '{' :: '}' :: rest)
  simp only [List.cons_append] at dk
  simp [matchTypeDeclAt, dropLit, List.takeWhile_cons, List.dropWhile_cons,
    hn0s, hk0, e1.1, e1.2, dk, s1, s2, b1]

/-- C10: the interface and struct body patterns require at least one
character between the braces, so an empty-bodied declaration
`type <Name> interface {}` or `type <Name> struct {}` is not matched at its
site whatever follows it, and a file consisting of such declarations leaves
the Interfaces and Structs collections empty. -/
theorem c10_empty_body_not_matched (name rest : Str) (hne : name ≠ [])
    (hw : ∀ c ∈ name, wordChar c = true) :
    matchTypeDeclAt "interface".toList
      ('t' :: 'y' :: 'p' :: 'e' :: ' ' ::
        (name ++ (' ' :: ("interface".toList ++ (' ' :: '{' :: '}' :: rest))))) = none ∧
    matchTypeDeclAt "struct".toList
      ('t' :: 'y' :: 'p' :: 'e' :: ' ' ::
        (name ++ (' ' :: ("struct".toList ++ (' ' :: '{' :: '}' :: rest))))) = none ∧
    (analyze_file emptyAnalyzer
      ⟨"e.go".toList, "e.go".toList,
        "type X interface \x7b\x7d\ntype Y struct \x7b\x7d".toList⟩).interfaces = [] ∧
    (analyze_file emptyAnalyzer
      ⟨"e.go".toList, "e.go".toList,
        "type X interface \x7b\x7d\ntype Y struct \x7b\x7d".toList⟩).structs = [] := by
  refine ⟨?_, ?_, by decide, by decide⟩
  · exact matchTypeDecl_empty_site 'i' "nterface".toList name rest (by decide) hne hw
  · exact matchTypeDecl_empty_site 's' "truct".toList name rest (by decide) hne hw

/-- C10, witness: the declarations `type X interface {}` and
`type Y struct {}` themselves are not matched. -/
theorem c10_empty_body_not_matched_witness :
    matchTypeDeclAt "interface".toList "type X interface \x7b\x7d".toList = none ∧
    matchTypeDeclAt "struct".toList "type Y struct \x7b\x7d".toList = none := by
  exact ⟨(c10_empty_body_not_matched ['X'] [] (by decide) (by decide)).1,
    (c10_empty_body_not_matched ['Y'] [] (by decide) (by decide)).2.1⟩
